import Mathlib

/-!
Verification of the `django-blargg` data layer (`blargg/models.py`).

The development shallowly embeds the model layer of the repository:

* Python/Django string helpers restricted to their ASCII fragment:
  `str.lower`, `str.strip`, `str.split(',')`, and
  `django.template.defaultfilters.slugify`;
* the `Tag` model with its `save` normalization and the slug uniqueness
  constraint enforced by the store;
* `TagManager.create_tags` together with Django's `get_or_create`
  (including its retry-the-lookup handling of `IntegrityError`);
* the `Entry` model with `_create_slug`, `_create_date_slug`,
  `_render_content`, `_set_published`, `save`, `publish`, `unpublish`,
  and the `post_save` hook `generate_entry_tags`.

Dates are explicit records; the current wall-clock instant is passed to
every operation that reads it (`datetime.today()` / `datetime.now()`).
Exceptions are modelled with `Except`; the signals sent during a call are
returned as an explicit list.
-/

/-- ASCII fragment of Python's `str.lower` on a single character:
`chr(ord(c) + 32)` for `A`–`Z`, identity otherwise.  (Python's `lower`
also maps non-ASCII letters; every string in this repository's logic is
ASCII.) -/
def pyLowerChar (c : Char) : Char :=
  if h : 'A' ≤ c ∧ c ≤ 'Z' then
    ⟨c.val + 32, by
      rcases h with ⟨h1, h2⟩
      have n2 : c.val.toNat ≤ 90 := by
        have := (UInt32.le_def.mp h2)
        exact BitVec.le_def.mp this
      have hs : UInt32.size = 4294967296 := rfl
      have heq : (c.val + 32).toNat = c.val.toNat + 32 := by
        rw [UInt32.toNat_add]
        have h32 : (32 : UInt32).toNat = 32 := rfl
        rw [h32]
        exact Nat.mod_eq_of_lt (by omega)
      exact Or.inl (by show (c.val + 32).toNat < 55296; omega)⟩
  else c

/-- Python's `\s` class over ASCII: the characters stripped by `str.strip()`
and matched by the `[-\s]+` run in `slugify`. -/
def pyIsSpace (c : Char) : Bool :=
  c = ' ' || c = '\t' || c = '\n' || c = '\r' || c = '\x0b' || c = '\x0c'

/-- Embedding of `str.strip()` on a character list: whitespace removed from both ends
(right end first; the order is immaterial). -/
def stripL (l : List Char) : List Char :=
  ((l.reverse.dropWhile pyIsSpace).reverse).dropWhile pyIsSpace

/-- Embedding of `str.lower()` on a character list. -/
def lowerL (l : List Char) : List Char := l.map pyLowerChar

/-- Embedding of `t.lower().strip()` — the normalization `create_tags` applies to each
comma token, and `Tag.save` applies to `name` (`models.py` lines 20 and 46). -/
def pyNormalize (s : String) : String := String.mk (stripL (lowerL s.data))

/-- Character class kept by `slugify`'s first substitution
`re.sub(r'[^\w\s-]', '', value)` (ASCII `\w` = alphanumeric or `_`). -/
def slugKeep (c : Char) : Bool :=
  c.isAlphanum || c = '_' || pyIsSpace c || c = '-'

/-- Embedding of `re.sub(r'[-\s]+', '-', value)`: collapse each run of hyphens and
whitespace into a single hyphen.  The boolean records whether the previous
character belonged to the current run. -/
def collapseRuns : List Char → Bool → List Char
  | [], _ => []
  | c :: rest, prevRun =>
    if pyIsSpace c || c = '-' then
      if prevRun then collapseRuns rest true
      else '-' :: collapseRuns rest true
    else c :: collapseRuns rest false

/-- Embedding of `django.template.defaultfilters.slugify` (ASCII fragment):
`re.sub(r'[^\w\s-]', '', value).strip().lower()` followed by
`re.sub(r'[-\s]+', '-', value)`. -/
def slugify (s : String) : String :=
  String.mk (collapseRuns (lowerL (stripL (s.data.filter slugKeep))) false)

/-- Python `s.split(',')` on a character list: `""` splits to `[""]`. -/
def splitComma : List Char → List (List Char)
  | [] => [[]]
  | c :: rest =>
    if c = ',' then [] :: splitComma rest
    else
      match splitComma rest with
      | [] => [[c]]
      | w :: ws => (c :: w) :: ws

/-- Embedding of `s.split(',')` on strings. -/
def pySplitComma (s : String) : List String := (splitComma s.data).map String.mk

/-- A calendar date.  Python `datetime` restricts `year` to `1..9999`;
formatting below is faithful on that range. -/
structure Date where
  year : Nat
  month : Nat
  day : Nat
deriving DecidableEq, Repr

/-- A `datetime` instant: its calendar date plus a tick distinguishing
instants within one day. -/
structure DateTime where
  date : Date
  tick : Nat
deriving DecidableEq, Repr

/-- A single decimal digit character. -/
def digitChar (n : Nat) : Char := Char.ofNat (48 + n % 10)

/-- Zero-padded two-digit field (`%m`, `%d`). -/
def pad2 (n : Nat) : String := String.mk [digitChar (n / 10), digitChar n]

/-- Zero-padded four-digit year (`%Y`; `datetime` years are `< 10000`). -/
def pad4 (n : Nat) : String :=
  String.mk [digitChar (n / 1000), digitChar (n / 100), digitChar (n / 10), digitChar n]

/-- Embedding of `d.strftime("%Y/%m/%d")`. -/
def dateFormat (d : Date) : String :=
  pad4 d.year ++ "/" ++ pad2 d.month ++ "/" ++ pad2 d.day

/-- Exceptions that the embedded code can raise. -/
inductive PyError where
  | notImplementedError
  | attributeError
  | integrityError
  | nameError
deriving DecidableEq, Repr

/-- Signals observable from outside a call: the `entry_published` signal
from `blargg/signals.py`. -/
inductive Signal where
  | entry_published
deriving DecidableEq, Repr

/-- A row of the `Tag` table. -/
structure Tag where
  name : String
  slug : String
deriving DecidableEq, Repr

/-- Embedding of `Tag.save` (`models.py` lines 44-48): normalize `name`, derive `slug`. -/
def Tag.save (t : Tag) : Tag :=
  let n := pyNormalize t.name
  { name := n, slug := slugify n }

/-- Django's `Manager.get_or_create(name=n)` against the `Tag` table, with
the store's unique constraint on `Tag.slug`.  A lookup by `name` that
fails leads to `Tag(name=n).save()`; if the saved row's slug collides with
an existing row the store raises `IntegrityError`, `get_or_create` retries
the lookup by `name`, still finds nothing (the colliding row has a
different name), and re-raises the `IntegrityError`. -/
def get_or_create (table : List Tag) (n : String) : Except PyError (List Tag × Tag) :=
  match table.find? (fun t => t.name = n) with
  | some t => .ok (table, t)
  | none =>
    let tag := Tag.save { name := n, slug := "" }
    if table.any (fun t => t.slug = tag.slug) then .error .integrityError
    else .ok (table ++ [tag], tag)

/-- The Tag table together with one entry's `tags` associations
(`entry.tags.all()`, as rows). -/
structure TagState where
  table : List Tag
  assoc : List Tag
deriving DecidableEq, Repr

/-- One iteration of the `for t in tag_list` loop in
`TagManager.create_tags` (`models.py` lines 21-28): `get_or_create`, then
associate unless the name is already in `entry.tags.values_list('name')`;
`except IntegrityError: pass`. -/
def createTagsStep (s : TagState) (t : String) : TagState :=
  match get_or_create s.table t with
  | .error _ => s
  | .ok (table', tag) =>
    if (s.assoc.map Tag.name).contains tag.name then { s with table := table' }
    else { table := table', assoc := s.assoc ++ [tag] }

/-- Embedding of `TagManager.create_tags(entry)` given the entry's `tag_string` and
current associations: split on commas, normalize each token, run the loop. -/
def create_tags (s : TagState) (tag_string : String) : TagState :=
  let tag_list := (pySplitComma tag_string).map pyNormalize
  tag_list.foldl createTagsStep s

/-- The `Entry` model's fields used by its lifecycle logic.  `pk` is the
database identity (`None` before the first successful persist; Django
assigns positive keys, so Python's `not self.pk` is `pk = none` here).
`tags` is the entry's side of the many-to-many relation. -/
structure Entry where
  pk : Option Nat
  title : String
  raw_content : String
  content_format : String
  rendered_content : String
  published : Bool
  slug : String
  date_slug : String
  tag_string : String
  tags : List Tag
  published_on : Option DateTime
  updated_on : Option DateTime
deriving DecidableEq, Repr

/-- Embedding of `Entry._create_slug` (`models.py` lines 97-101): derive `slug` from
`title` only when `slug` is still falsy (the empty string). -/
def Entry.create_slug (e : Entry) : Entry :=
  if e.slug = "" then { e with slug := slugify e.title } else e

/-- Embedding of `Entry._create_date_slug` (`models.py` lines 103-114).  The local `d`
is only assigned in the three guarded branches; when none fires, the
format line reads an unbound local and Python raises `NameError`. -/
def Entry.create_date_slug (e : Entry) (today : DateTime) : Except PyError Entry :=
  let d? : Option DateTime :=
    if e.pk = none then some today
    else if e.published && e.published_on.isSome then e.published_on
    else if e.updated_on.isSome then e.updated_on
    else none
  match d? with
  | some d => .ok { e with date_slug := dateFormat d.date ++ "/" ++ e.slug }
  | none => .error .nameError

/-- Embedding of `Entry._render_content` (`models.py` lines 116-125).  The `html` arm
copies `raw_content`; the `md` arm raises `NotImplementedError`; every
other format reaches `elif self.content_fromat == "rst"`, whose misspelled
attribute read raises `AttributeError` before any comparison happens. -/
def Entry.render_content (e : Entry) : Except PyError Entry :=
  if e.content_format = "html" then .ok { e with rendered_content := e.raw_content }
  else if e.content_format = "md" then .error .notImplementedError
  else .error .attributeError

/-- Embedding of `Entry._set_published` (`models.py` lines 127-132): force the
published state, stamp `now`, and send `entry_published`. -/
def Entry.set_published (e : Entry) (now : DateTime) : Entry × List Signal :=
  ({ e with published := true, published_on := some now }, [.entry_published])

/-- State outside one entry: the Tag table and the persistence layer's
next primary key. -/
structure World where
  table : List Tag
  nextPk : Nat
deriving DecidableEq, Repr

/-- Embedding of `django.db.models.Model.save` — the `super(Entry, self).save()` call
on line 147: assign a fresh positive `pk` on first persist and stamp the
`auto_now` field `updated_on`. -/
def djangoPersist (e : Entry) (w : World) (now : DateTime) : Entry × World :=
  match e.pk with
  | some _ => ({ e with updated_on := some now }, w)
  | none => ({ e with pk := some w.nextPk, updated_on := some now },
             { w with nextPk := w.nextPk + 1 })

/-- The `post_save` receiver `generate_entry_tags` (`models.py` lines
189-193): run `Tag.objects.create_tags(instance)` on the persisted row. -/
def generate_entry_tags (e : Entry) (w : World) : Entry × World :=
  let ts := create_tags { table := w.table, assoc := e.tags } e.tag_string
  ({ e with tags := ts.assoc }, { w with table := ts.table })

/-- Embedding of `super().save()` immediately followed by the `post_save` dispatch. -/
def persistAndHook (e : Entry) (w : World) (now : DateTime) : Entry × World :=
  let pw := djangoPersist e w now
  generate_entry_tags pw.1 pw.2

/-- Embedding of `Entry.save` (`models.py` lines 134-147) followed by the `post_save`
receiver.  Returns the signals sent during the call and, unless an
exception escaped, the updated entry and world. -/
def Entry.save (e : Entry) (w : World) (now : DateTime) :
    List Signal × Except PyError (Entry × World) :=
  match (e.create_slug).create_date_slug now with
  | .error err => ([], .error err)
  | .ok e2 =>
    match e2.render_content with
    | .error err => ([], .error err)
    | .ok e3 =>
      let p := if e3.published = true ∧ e3.published_on = none
               then e3.set_published now else (e3, [])
      (p.2, .ok (persistAndHook p.1 w now))

/-- Embedding of `Entry.publish` (`models.py` lines 161-164): `_set_published()` then
`save()`.  The signal from `_set_published` is sent even if `save` then
raises. -/
def Entry.publish (e : Entry) (w : World) (now : DateTime) :
    List Signal × Except PyError (Entry × World) :=
  let p := e.set_published now
  let r := p.1.save w now
  (p.2 ++ r.1, r.2)

/-- Embedding of `Entry.unpublish` (`models.py` lines 166-169): clear the published
state, null `published_on`, save. -/
def Entry.unpublish (e : Entry) (w : World) (now : DateTime) :
    List Signal × Except PyError (Entry × World) :=
  Entry.save { e with published := false, published_on := none } w now

/-- After the loop body has handled token `t`, the state is settled for
`t`: either some table row named `t` exists and `t` is among the entry's
associated names, or no row is named `t` and a row already occupies the
slug that creating `t` would need (so creation raises `IntegrityError`
and the body skips). -/
def TagDone (s : TagState) (t : String) : Prop :=
  ((∃ tg ∈ s.table, tg.name = t) ∧ t ∈ s.assoc.map Tag.name) ∨
  ((¬ ∃ tg ∈ s.table, tg.name = t) ∧ ∃ tg ∈ s.table, tg.slug = slugify (pyNormalize t))

/-- A fresh, never-persisted entry as the repository's tests build one
(`tests/models.py`), parametrized by `content_format` and `tag_string`. -/
def mkEntry (format : String) (tagStr : String) : Entry :=
  { pk := none, title := "Test Entry", raw_content := "Test Content",
    content_format := format, rendered_content := "", published := false,
    slug := "", date_slug := "", tag_string := tagStr, tags := [],
    published_on := none, updated_on := none }

/-- Three successive instants for the publish / unpublish / publish cycle. -/
def cycleT1 : DateTime := ⟨⟨2013, 1, 2⟩, 0⟩

def cycleT2 : DateTime := ⟨⟨2013, 1, 3⟩, 0⟩

def cycleT3 : DateTime := ⟨⟨2013, 1, 4⟩, 0⟩

/-- The entry after the first `publish()` at `cycleT1`. -/
def cycleE1 : Entry :=
  { pk := some 1, title := "Test Entry", raw_content := "Test Content",
    content_format := "html", rendered_content := "Test Content", published := true,
    slug := "test-entry", date_slug := "2013/01/02/test-entry", tag_string := "foo",
    tags := [⟨"foo", "foo"⟩], published_on := some cycleT1, updated_on := some cycleT1 }

/-- The world after the first `publish()`. -/
def cycleW1 : World := { table := [⟨"foo", "foo"⟩], nextPk := 2 }

/-- The entry after `unpublish()` at `cycleT2`. -/
def cycleE2 : Entry :=
  { cycleE1 with published := false, published_on := none, updated_on := some cycleT2 }

/-- The entry after the second `publish()` at `cycleT3`: a fresh
`published_on` stamp and a recomputed `date_slug`. -/
def cycleE3 : Entry :=
  { cycleE1 with
    date_slug := "2013/01/04/test-entry"
    published_on := some cycleT3
    updated_on := some cycleT3 }

/-- An instant used by the witness scenarios. -/
def wT : DateTime := ⟨⟨2014, 5, 6⟩, 7⟩

/-- The entry produced by saving `mkEntry "html" "foo"` at `wT` (a fixed
point of a further `save` at `wT`). -/
def savedE : Entry :=
  { pk := some 1, title := "Test Entry", raw_content := "Test Content",
    content_format := "html", rendered_content := "Test Content", published := false,
    slug := "test-entry", date_slug := "2014/05/06/test-entry", tag_string := "foo",
    tags := [⟨"foo", "foo"⟩], published_on := none, updated_on := some wT }

/-- The world after that save. -/
def savedW : World := { table := [⟨"foo", "foo"⟩], nextPk := 2 }

theorem uint32_le_iff_toNat {a b : UInt32} : a ≤ b ↔ a.toNat ≤ b.toNat :=
  Iff.trans UInt32.le_def BitVec.le_def

theorem toNat_pyLowerChar (c : Char) :
    (pyLowerChar c).toNat = if 65 ≤ c.toNat ∧ c.toNat ≤ 90 then c.toNat + 32 else c.toNat := by
  unfold pyLowerChar
  split
  · next h =>
    rcases h with ⟨h1, h2⟩
    have n1 : 65 ≤ c.val.toNat := uint32_le_iff_toNat.mp h1
    have n2 : c.val.toNat ≤ 90 := uint32_le_iff_toNat.mp h2
    have hs : UInt32.size = 4294967296 := rfl
    have heq : (c.val + 32).toNat = c.val.toNat + 32 := by
      rw [UInt32.toNat_add]
      have h32 : (32 : UInt32).toNat = 32 := rfl
      rw [h32]
      exact Nat.mod_eq_of_lt (by omega)
    show (c.val + 32).toNat = _
    rw [if_pos ⟨n1, n2⟩]
    exact heq
  · next h =>
    rw [if_neg]
    intro ⟨n1, n2⟩
    exact h ⟨uint32_le_iff_toNat.mpr n1, uint32_le_iff_toNat.mpr n2⟩

theorem pyLowerChar_idem (c : Char) : pyLowerChar (pyLowerChar c) = pyLowerChar c := by
  have h1 := toNat_pyLowerChar c
  have h2 := toNat_pyLowerChar (pyLowerChar c)
  apply Char.eq_of_val_eq
  apply UInt32.toNat.inj
  show (pyLowerChar (pyLowerChar c)).toNat = (pyLowerChar c).toNat
  by_cases hc : 65 ≤ c.toNat ∧ c.toNat ≤ 90
  · rw [if_pos hc] at h1
    rw [h1, if_neg (by omega)] at h2
    exact h2.trans h1.symm
  · rw [if_neg hc] at h1
    rw [h1, if_neg hc] at h2
    exact h2.trans h1.symm

theorem char_eq_iff_toNat {c d : Char} : c = d ↔ c.toNat = d.toNat := by
  constructor
  · intro h; rw [h]
  · intro h; exact Char.eq_of_val_eq (UInt32.toNat.inj h)

theorem pyIsSpace_false_of_ge (d : Char) (hd : 33 ≤ d.toNat) : pyIsSpace d = false := by
  unfold pyIsSpace
  simp only [Bool.or_eq_false_iff, decide_eq_false_iff_not]
  refine ⟨⟨⟨⟨⟨?_, ?_⟩, ?_⟩, ?_⟩, ?_⟩, ?_⟩ <;> (intro he; rw [he] at hd; exact absurd hd (by decide))

theorem pyIsSpace_pyLowerChar (c : Char) : pyIsSpace (pyLowerChar c) = pyIsSpace c := by
  have h1 := toNat_pyLowerChar c
  by_cases hc : 65 ≤ c.toNat ∧ c.toNat ≤ 90
  · rw [if_pos hc] at h1
    rw [pyIsSpace_false_of_ge c (by omega), pyIsSpace_false_of_ge (pyLowerChar c) (by omega)]
  · have hfix : pyLowerChar c = c := by
      apply Char.eq_of_val_eq
      apply UInt32.toNat.inj
      show (pyLowerChar c).toNat = c.toNat
      rw [h1, if_neg hc]
    rw [hfix]

theorem dropWhile_self_idem (p : Char → Bool) (l : List Char) :
    (l.dropWhile p).dropWhile p = l.dropWhile p := by
  induction l with
  | nil => rfl
  | cons c rest ih =>
    by_cases h : p c
    · rw [List.dropWhile_cons_of_pos h, ih]
    · rw [List.dropWhile_cons_of_neg h, List.dropWhile_cons_of_neg h]

theorem lowerL_stripL (l : List Char) : lowerL (stripL l) = stripL (lowerL l) := by
  unfold lowerL stripL
  have hcomp : (pyIsSpace ∘ pyLowerChar) = pyIsSpace := funext pyIsSpace_pyLowerChar
  rw [← List.map_reverse, List.dropWhile_map, hcomp, ← List.map_reverse, List.dropWhile_map, hcomp]

theorem lowerL_idem (l : List Char) : lowerL (lowerL l) = lowerL l := by
  unfold lowerL
  rw [List.map_map]
  exact List.map_congr_left (fun c _ => pyLowerChar_idem c)

theorem stripL_eq_rdrop (l : List Char) :
    stripL l = (List.rdropWhile pyIsSpace l).dropWhile pyIsSpace := rfl

theorem stripL_idem (l : List Char) : stripL (stripL l) = stripL l := by
  rw [stripL_eq_rdrop, stripL_eq_rdrop]
  have hrd : List.rdropWhile pyIsSpace
      ((List.rdropWhile pyIsSpace l).dropWhile pyIsSpace)
      = (List.rdropWhile pyIsSpace l).dropWhile pyIsSpace := by
    rw [List.rdropWhile_eq_self_iff]
    intro hnil
    obtain ⟨a, ha⟩ :=
      List.dropWhile_suffix (l := List.rdropWhile pyIsSpace l) (p := pyIsSpace)
    have hRnil : List.rdropWhile pyIsSpace l ≠ [] := by
      intro hcon
      rw [hcon, List.dropWhile_nil] at hnil
      exact hnil rfl
    have happ : (a ++ (List.rdropWhile pyIsSpace l).dropWhile pyIsSpace) ≠ [] := by
      rw [ha]; exact hRnil
    have hg : ((List.rdropWhile pyIsSpace l).dropWhile pyIsSpace).getLast hnil
        = (List.rdropWhile pyIsSpace l).getLast hRnil := by
      have h1 : (a ++ (List.rdropWhile pyIsSpace l).dropWhile pyIsSpace).getLast happ
          = ((List.rdropWhile pyIsSpace l).dropWhile pyIsSpace).getLast hnil :=
        List.getLast_append_of_ne_nil hnil
      have h2 := List.getLast_congr happ hRnil ha
      rw [← h1]
      exact h2
    rw [hg]
    exact List.rdropWhile_last_not (p := pyIsSpace) (l := l) hRnil
  rw [hrd, dropWhile_self_idem]

theorem pyNormalize_idem (s : String) : pyNormalize (pyNormalize s) = pyNormalize s := by
  show String.mk (stripL (lowerL (String.mk (stripL (lowerL s.data))).data)) = _
  show String.mk (stripL (lowerL (stripL (lowerL s.data)))) = _
  rw [lowerL_stripL, stripL_idem, lowerL_idem]
  rfl

theorem createTagsStep_eq (s : TagState) (t : String) :
    createTagsStep s t =
      match s.table.find? (fun tg => tg.name = t) with
      | some tg =>
        if (s.assoc.map Tag.name).contains tg.name then s
        else { table := s.table, assoc := s.assoc ++ [tg] }
      | none =>
        if s.table.any (fun tg => tg.slug = (Tag.save { name := t, slug := "" }).slug) then s
        else if (s.assoc.map Tag.name).contains (Tag.save { name := t, slug := "" }).name then
          { s with table := s.table ++ [Tag.save { name := t, slug := "" }] }
        else { table := s.table ++ [Tag.save { name := t, slug := "" }],
               assoc := s.assoc ++ [Tag.save { name := t, slug := "" }] } := by
  unfold createTagsStep get_or_create
  rcases hfind : s.table.find? (fun tg => tg.name = t) with _ | tg
  · by_cases hslug : s.table.any (fun tg => tg.slug = (Tag.save { name := t, slug := "" }).slug)
    · simp [hfind, hslug]
    · by_cases hmem : (s.assoc.map Tag.name).contains (Tag.save { name := t, slug := "" }).name
        <;> simp [hfind, hslug, hmem]
  · by_cases hmem : (s.assoc.map Tag.name).contains tg.name <;> simp [hfind, hmem]

theorem createTagsStep_table_append (s : TagState) (t : String) :
    ∃ u, (createTagsStep s t).table = s.table ++ u := by
  rw [createTagsStep_eq]
  rcases hfind : s.table.find? (fun tg => tg.name = t) with _ | tg
  · by_cases hslug : s.table.any (fun tg => tg.slug = (Tag.save { name := t, slug := "" }).slug)
    · exact ⟨[], by simp [hfind, hslug]⟩
    · by_cases hmem : ∃ a ∈ s.assoc, a.name = (Tag.save { name := t, slug := "" }).name
      · exact ⟨[Tag.save { name := t, slug := "" }], by simp [hfind, hslug, hmem]⟩
      · exact ⟨[Tag.save { name := t, slug := "" }], by simp [hfind, hslug, hmem]⟩
  · by_cases hmem : ∃ a ∈ s.assoc, a.name = tg.name
    · exact ⟨[], by simp [hfind, hmem]⟩
    · exact ⟨[], by simp [hfind, hmem]⟩

theorem createTagsStep_assoc_append (s : TagState) (t : String) :
    ∃ u, (createTagsStep s t).assoc = s.assoc ++ u := by
  rw [createTagsStep_eq]
  rcases hfind : s.table.find? (fun tg => tg.name = t) with _ | tg
  · by_cases hslug : s.table.any (fun tg => tg.slug = (Tag.save { name := t, slug := "" }).slug)
    · exact ⟨[], by simp [hfind, hslug]⟩
    · by_cases hmem : ∃ a ∈ s.assoc, a.name = (Tag.save { name := t, slug := "" }).name
      · exact ⟨[], by simp [hfind, hslug, hmem]⟩
      · exact ⟨[Tag.save { name := t, slug := "" }], by simp [hfind, hslug, hmem]⟩
  · by_cases hmem : ∃ a ∈ s.assoc, a.name = tg.name
    · exact ⟨[], by simp [hfind, hmem]⟩
    · exact ⟨[tg], by simp [hfind, hmem]⟩

theorem foldl_table_append (l : List String) (s : TagState) :
    ∃ u, (l.foldl createTagsStep s).table = s.table ++ u := by
  induction l generalizing s with
  | nil => exact ⟨[], by simp⟩
  | cons t rest ih =>
    obtain ⟨u1, h1⟩ := createTagsStep_table_append s t
    obtain ⟨u2, h2⟩ := ih (createTagsStep s t)
    exact ⟨u1 ++ u2, by simp [List.foldl_cons, h2, h1]⟩

theorem foldl_assoc_append (l : List String) (s : TagState) :
    ∃ u, (l.foldl createTagsStep s).assoc = s.assoc ++ u := by
  induction l generalizing s with
  | nil => exact ⟨[], by simp⟩
  | cons t rest ih =>
    obtain ⟨u1, h1⟩ := createTagsStep_assoc_append s t
    obtain ⟨u2, h2⟩ := ih (createTagsStep s t)
    exact ⟨u1 ++ u2, by simp [List.foldl_cons, h2, h1]⟩

theorem mem_table_createTagsStep {s : TagState} {x : Tag} (t : String)
    (h : x ∈ s.table) : x ∈ (createTagsStep s t).table := by
  obtain ⟨u, hu⟩ := createTagsStep_table_append s t
  rw [hu]
  exact List.mem_append_left u h

theorem mem_assoc_names_createTagsStep {s : TagState} {n : String} (t : String)
    (h : n ∈ s.assoc.map Tag.name) : n ∈ (createTagsStep s t).assoc.map Tag.name := by
  obtain ⟨u, hu⟩ := createTagsStep_assoc_append s t
  rw [hu, List.map_append]
  exact List.mem_append_left _ h

theorem createTagsStep_none_eq (s : TagState) (t : String)
    (hfind : s.table.find? (fun tg => tg.name = t) = none) :
    createTagsStep s t =
      if s.table.any (fun tg => tg.slug = slugify (pyNormalize t)) then s
      else if pyNormalize t ∈ s.assoc.map Tag.name then
        { table := s.table ++ [⟨pyNormalize t, slugify (pyNormalize t)⟩], assoc := s.assoc }
      else { table := s.table ++ [⟨pyNormalize t, slugify (pyNormalize t)⟩],
             assoc := s.assoc ++ [⟨pyNormalize t, slugify (pyNormalize t)⟩] } := by
  have hsave : Tag.save { name := t, slug := "" } = ⟨pyNormalize t, slugify (pyNormalize t)⟩ := rfl
  rw [createTagsStep_eq]
  simp only [hfind, hsave]
  by_cases hslug : s.table.any (fun tg => tg.slug = slugify (pyNormalize t))
  · simp [hslug]
  · by_cases hmem : pyNormalize t ∈ s.assoc.map Tag.name
    · simp only [List.mem_map] at hmem
      simp [hslug, hmem]
    · simp only [List.mem_map] at hmem
      push_neg at hmem
      simp [hslug, hmem]

theorem createTagsStep_some_eq (s : TagState) (t : String) (tg : Tag)
    (hfind : s.table.find? (fun tg => tg.name = t) = some tg) :
    createTagsStep s t =
      if t ∈ s.assoc.map Tag.name then s
      else { table := s.table, assoc := s.assoc ++ [tg] } := by
  have hp := List.find?_some (p := fun x : Tag => decide (x.name = t)) (a := tg) hfind
  have hname : tg.name = t := of_decide_eq_true hp
  rw [createTagsStep_eq]
  simp only [hfind, hname]
  by_cases hmem : t ∈ s.assoc.map Tag.name
  · simp only [List.mem_map] at hmem
    simp [hmem]
  · simp only [List.mem_map] at hmem
    push_neg at hmem
    simp [hmem]

theorem find?_none_iff_table (s : List Tag) (t : String) :
    s.find? (fun tg => tg.name = t) = none ↔ ¬ ∃ tg ∈ s, tg.name = t := by
  rw [List.find?_eq_none]
  constructor
  · intro h ⟨tg, htg, hname⟩
    exact absurd (decide_eq_true hname) (h tg htg)
  · intro h tg htg hd
    exact h ⟨tg, htg, of_decide_eq_true hd⟩

theorem tagDone_step_self (s : TagState) (t : String) (hnorm : pyNormalize t = t) :
    TagDone (createTagsStep s t) t := by
  rcases hfind : s.table.find? (fun tg => tg.name = t) with _ | tg
  · have hnone := (find?_none_iff_table s.table t).mp hfind
    rw [createTagsStep_none_eq s t hfind]
    by_cases hslug : s.table.any (fun tg => tg.slug = slugify (pyNormalize t))
    · rw [if_pos hslug]
      right
      refine ⟨hnone, ?_⟩
      obtain ⟨tg, htg, heq⟩ := List.any_eq_true.mp hslug
      exact ⟨tg, htg, of_decide_eq_true heq⟩
    · rw [if_neg hslug]
      by_cases hmem : pyNormalize t ∈ s.assoc.map Tag.name
      · rw [if_pos hmem]
        left
        exact ⟨⟨⟨pyNormalize t, slugify (pyNormalize t)⟩, by simp, hnorm⟩, hnorm ▸ hmem⟩
      · rw [if_neg hmem]
        left
        refine ⟨⟨⟨pyNormalize t, slugify (pyNormalize t)⟩, by simp, hnorm⟩, ?_⟩
        rw [List.map_append]
        exact List.mem_append_right _ (by simp [hnorm])
  · have hp := List.find?_some (p := fun x : Tag => decide (x.name = t)) (a := tg) hfind
    have hname : tg.name = t := of_decide_eq_true hp
    have htg_mem : tg ∈ s.table :=
      List.mem_of_find?_eq_some (p := fun x : Tag => decide (x.name = t)) hfind
    rw [createTagsStep_some_eq s t tg hfind]
    by_cases hmem : t ∈ s.assoc.map Tag.name
    · rw [if_pos hmem]
      exact Or.inl ⟨⟨tg, htg_mem, hname⟩, hmem⟩
    · rw [if_neg hmem]
      left
      refine ⟨⟨tg, by simp [htg_mem], hname⟩, ?_⟩
      rw [List.map_append]
      exact List.mem_append_right _ (by simp [hname])

theorem tagDone_mono (s : TagState) (t u : String) (h : TagDone s t) :
    TagDone (createTagsStep s u) t := by
  rcases hfind : s.table.find? (fun tg => tg.name = u) with _ | tg
  · rw [createTagsStep_none_eq s u hfind]
    by_cases hslug : s.table.any (fun tg => tg.slug = slugify (pyNormalize u))
    · rw [if_pos hslug]; exact h
    · rw [if_neg hslug]
      by_cases heq : pyNormalize u = t
      · -- the created row is named `t`; it lands associated either way
        by_cases hmem : pyNormalize u ∈ s.assoc.map Tag.name
        · rw [if_pos hmem]
          left
          exact ⟨⟨⟨pyNormalize u, slugify (pyNormalize u)⟩, by simp, heq⟩, heq ▸ hmem⟩
        · rw [if_neg hmem]
          left
          refine ⟨⟨⟨pyNormalize u, slugify (pyNormalize u)⟩, by simp, heq⟩, ?_⟩
          rw [List.map_append]
          exact List.mem_append_right _ (by simp [heq])
      · -- a row with a different name appears; both disjuncts survive
        rcases h with ⟨⟨tg0, htg0, hn0⟩, hassoc⟩ | ⟨hnone, tg0, htg0, hs0⟩
        · by_cases hmem : pyNormalize u ∈ s.assoc.map Tag.name
          · rw [if_pos hmem]
            exact Or.inl ⟨⟨tg0, by simp [htg0], hn0⟩, hassoc⟩
          · rw [if_neg hmem]
            left
            refine ⟨⟨tg0, by simp [htg0], hn0⟩, ?_⟩
            rw [List.map_append]
            exact List.mem_append_left _ hassoc
        · have hnone' : ¬ ∃ tg ∈ s.table ++ [(⟨pyNormalize u, slugify (pyNormalize u)⟩ : Tag)],
              tg.name = t := by
            intro ⟨tg1, htg1, hn1⟩
            rcases List.mem_append.mp htg1 with hin | hin
            · exact hnone ⟨tg1, hin, hn1⟩
            · rw [List.mem_singleton.mp hin] at hn1
              exact heq hn1
          by_cases hmem : pyNormalize u ∈ s.assoc.map Tag.name
          · rw [if_pos hmem]
            exact Or.inr ⟨hnone', tg0, by simp [htg0], hs0⟩
          · rw [if_neg hmem]
            exact Or.inr ⟨hnone', tg0, by simp [htg0], hs0⟩
  · rw [createTagsStep_some_eq s u tg hfind]
    by_cases hmem : u ∈ s.assoc.map Tag.name
    · rw [if_pos hmem]; exact h
    · rw [if_neg hmem]
      have hp := List.find?_some (p := fun x : Tag => decide (x.name = u)) (a := tg) hfind
      have hname : tg.name = u := of_decide_eq_true hp
      have htg_mem : tg ∈ s.table :=
        List.mem_of_find?_eq_some (p := fun x : Tag => decide (x.name = u)) hfind
      rcases h with ⟨⟨tg0, htg0, hn0⟩, hassoc⟩ | ⟨hnone, tg0, htg0, hs0⟩
      · left
        refine ⟨⟨tg0, htg0, hn0⟩, ?_⟩
        rw [List.map_append]
        exact List.mem_append_left _ hassoc
      · exact Or.inr ⟨hnone, tg0, htg0, hs0⟩

theorem tagDone_fixed (s : TagState) (t : String) (h : TagDone s t) :
    createTagsStep s t = s := by
  rcases h with ⟨⟨tg0, htg0, hn0⟩, hassoc⟩ | ⟨hnone, tg0, htg0, hs0⟩
  · rcases hfind : s.table.find? (fun tg => tg.name = t) with _ | tg
    · exact absurd ⟨tg0, htg0, hn0⟩ ((find?_none_iff_table s.table t).mp hfind)
    · rw [createTagsStep_some_eq s t tg hfind, if_pos hassoc]
  · have hfind : s.table.find? (fun tg => tg.name = t) = none :=
      (find?_none_iff_table s.table t).mpr hnone
    have hslug : s.table.any (fun tg => tg.slug = slugify (pyNormalize t)) := by
      exact List.any_eq_true.mpr ⟨tg0, htg0, decide_eq_true hs0⟩
    rw [createTagsStep_none_eq s t hfind, if_pos hslug]

theorem tagDone_foldl_mono (l : List String) (s : TagState) (t : String)
    (h : TagDone s t) : TagDone (l.foldl createTagsStep s) t := by
  induction l generalizing s with
  | nil => exact h
  | cons u rest ih => exact ih _ (tagDone_mono s t u h)

theorem tagDone_foldl (l : List String) (s : TagState)
    (hnorm : ∀ u ∈ l, pyNormalize u = u) :
    ∀ t ∈ l, TagDone (l.foldl createTagsStep s) t := by
  induction l generalizing s with
  | nil => intro t ht; exact absurd ht (List.not_mem_nil t)
  | cons u rest ih =>
    intro t ht
    rw [List.foldl_cons]
    rcases List.mem_cons.mp ht with rfl | hrest
    · exact tagDone_foldl_mono rest _ t (tagDone_step_self s t (hnorm t ht))
    · exact ih (createTagsStep s u) (fun v hv => hnorm v (List.mem_cons_of_mem u hv)) t hrest

theorem foldl_fixed_of_done (l : List String) (s : TagState)
    (h : ∀ t ∈ l, TagDone s t) : l.foldl createTagsStep s = s := by
  induction l with
  | nil => rfl
  | cons u rest ih =>
    rw [List.foldl_cons, tagDone_fixed s u (h u (List.mem_cons_self u rest))]
    exact ih (fun t ht => h t (List.mem_cons_of_mem u ht))

theorem create_slug_shape (e : Entry) : ∃ sl, e.create_slug = { e with slug := sl } := by
  unfold Entry.create_slug
  split
  · exact ⟨slugify e.title, rfl⟩
  · exact ⟨e.slug, rfl⟩

theorem create_date_slug_ok_shape (e : Entry) (today : DateTime) (e2 : Entry)
    (h : e.create_date_slug today = .ok e2) : ∃ ds, e2 = { e with date_slug := ds } := by
  unfold Entry.create_date_slug at h
  rcases hd : (if e.pk = none then some today
    else if e.published && e.published_on.isSome then e.published_on
    else if e.updated_on.isSome then e.updated_on
    else none) with _ | d
  · rw [hd] at h
    exact absurd h (by simp)
  · rw [hd] at h
    simp only [Except.ok.injEq] at h
    exact ⟨_, h.symm⟩

theorem render_ok_shape (e : Entry) (e3 : Entry)
    (h : e.render_content = .ok e3) : ∃ rc, e3 = { e with rendered_content := rc } := by
  unfold Entry.render_content at h
  by_cases h1 : e.content_format = "html"
  · rw [if_pos h1] at h
    simp only [Except.ok.injEq] at h
    exact ⟨_, h.symm⟩
  · rw [if_neg h1] at h
    by_cases h2 : e.content_format = "md" <;> simp [h2] at h

theorem djangoPersist_fst (e : Entry) (w : World) (now : DateTime) :
    (djangoPersist e w now).1 =
      { e with pk := some (match e.pk with | some k => k | none => w.nextPk),
               updated_on := some now } := by
  unfold djangoPersist
  rcases hpk : e.pk with _ | k <;> simp [hpk]

theorem djangoPersist_table (e : Entry) (w : World) (now : DateTime) :
    (djangoPersist e w now).2.table = w.table := by
  unfold djangoPersist
  rcases hpk : e.pk with _ | k <;> simp [hpk]

theorem persistAndHook_fst (e : Entry) (w : World) (now : DateTime) :
    (persistAndHook e w now).1 =
      { e with pk := some (match e.pk with | some k => k | none => w.nextPk),
               updated_on := some now,
               tags := (create_tags { table := w.table, assoc := e.tags } e.tag_string).assoc } := by
  simp only [persistAndHook, generate_entry_tags]
  rw [djangoPersist_fst, djangoPersist_table]

theorem save_ok_detail (e : Entry) (w : World) (now : DateTime) (e' : Entry) (w' : World)
    (h : (Entry.save e w now).2 = .ok (e', w')) :
    ∃ e2, (e.create_slug).create_date_slug now = .ok e2 ∧
      e'.date_slug = e2.date_slug ∧
      e'.slug = e2.slug ∧
      e'.published = (if e.published = true ∧ e.published_on = none then true else e.published) ∧
      e'.published_on =
        (if e.published = true ∧ e.published_on = none then some now else e.published_on) ∧
      e'.updated_on = some now ∧
      e'.tags = (create_tags { table := w.table, assoc := e.tags } e.tag_string).assoc := by
  obtain ⟨sl, hsl⟩ := create_slug_shape e
  simp only [Entry.save] at h
  rcases hds : (e.create_slug).create_date_slug now with err | e2
  · simp only [hds] at h
    exact absurd h (by simp)
  · simp only [hds] at h
    obtain ⟨ds, hds2⟩ := create_date_slug_ok_shape _ now e2 hds
    rcases hrc : e2.render_content with err | e3
    · simp only [hrc] at h
      exact absurd h (by simp)
    · simp only [hrc] at h
      obtain ⟨rc, hrc2⟩ := render_ok_shape e2 e3 hrc
      have hpub : e3.published = e.published := by rw [hrc2, hds2, hsl]
      have hpubon : e3.published_on = e.published_on := by rw [hrc2, hds2, hsl]
      have hpk : e3.pk = e.pk := by rw [hrc2, hds2, hsl]
      have htags : e3.tags = e.tags := by rw [hrc2, hds2, hsl]
      have htstr : e3.tag_string = e.tag_string := by rw [hrc2, hds2, hsl]
      have hdslug : e3.date_slug = e2.date_slug := by rw [hrc2]
      have hslug3 : e3.slug = e2.slug := by rw [hrc2]
      refine ⟨e2, rfl, ?_⟩
      by_cases hg : e3.published = true ∧ e3.published_on = none
      · rw [if_pos hg] at h
        have hge : e.published = true ∧ e.published_on = none := ⟨hpub ▸ hg.1, hpubon ▸ hg.2⟩
        simp only [Entry.set_published, Except.ok.injEq] at h
        have h1 := congrArg Prod.fst h
        rw [persistAndHook_fst] at h1
        simp only at h1
        rw [← h1]
        simp [hdslug, hslug3, hpub, hpubon, hpk, htags, htstr, if_pos hge]
      · rw [if_neg hg] at h
        have hge : ¬ (e.published = true ∧ e.published_on = none) := by
          intro hc
          exact hg ⟨hpub ▸ hc.1, hpubon ▸ hc.2⟩
        simp only [Except.ok.injEq] at h
        have h1 := congrArg Prod.fst h
        rw [persistAndHook_fst] at h1
        simp only at h1
        rw [← h1]
        simp [hdslug, hslug3, hpub, hpubon, hpk, htags, htstr, if_neg hge]

theorem save_sigs_of_published_on_some (e : Entry) (w : World) (now : DateTime)
    (h : e.published_on ≠ none) : (Entry.save e w now).1 = [] := by
  obtain ⟨sl, hsl⟩ := create_slug_shape e
  simp only [Entry.save]
  rcases hds : (e.create_slug).create_date_slug now with err | e2
  · simp only [hds]
  · simp only [hds]
    obtain ⟨ds, hds2⟩ := create_date_slug_ok_shape _ now e2 hds
    rcases hrc : e2.render_content with err | e3
    · simp only [hrc]
    · simp only [hrc]
      obtain ⟨rc, hrc2⟩ := render_ok_shape e2 e3 hrc
      have hpubon : e3.published_on = e.published_on := by rw [hrc2, hds2, hsl]
      have hg : ¬ (e3.published = true ∧ e3.published_on = none) := by
        intro hc
        exact h (hpubon ▸ hc.2)
      rw [if_neg hg]

theorem createTagsStep_assocNames_nodup (s : TagState) (t : String)
    (h : (s.assoc.map Tag.name).Nodup) : ((createTagsStep s t).assoc.map Tag.name).Nodup := by
  rcases hfind : s.table.find? (fun tg => tg.name = t) with _ | tg
  · rw [createTagsStep_none_eq s t hfind]
    by_cases hslug : s.table.any (fun tg => tg.slug = slugify (pyNormalize t))
    · rw [if_pos hslug]; exact h
    · rw [if_neg hslug]
      by_cases hmem : pyNormalize t ∈ s.assoc.map Tag.name
      · rw [if_pos hmem]; exact h
      · rw [if_neg hmem]
        simp only [List.map_append, List.map_cons, List.map_nil]
        rw [List.nodup_append]
        exact ⟨h, List.nodup_singleton _, by simpa using fun hc => hmem hc⟩
  · rw [createTagsStep_some_eq s t tg hfind]
    have hp := List.find?_some (p := fun x : Tag => decide (x.name = t)) (a := tg) hfind
    have hname : tg.name = t := of_decide_eq_true hp
    by_cases hmem : t ∈ s.assoc.map Tag.name
    · rw [if_pos hmem]; exact h
    · rw [if_neg hmem]
      simp only [List.map_append, List.map_cons, List.map_nil]
      rw [List.nodup_append]
      exact ⟨h, List.nodup_singleton _, by simpa [hname] using fun hc => hmem hc⟩

theorem createTagsStep_tableSlugs_nodup (s : TagState) (t : String)
    (h : (s.table.map Tag.slug).Nodup) : ((createTagsStep s t).table.map Tag.slug).Nodup := by
  rcases hfind : s.table.find? (fun tg => tg.name = t) with _ | tg
  · rw [createTagsStep_none_eq s t hfind]
    by_cases hslug : s.table.any (fun tg => tg.slug = slugify (pyNormalize t))
    · rw [if_pos hslug]; exact h
    · rw [if_neg hslug]
      have hnotin : slugify (pyNormalize t) ∉ s.table.map Tag.slug := by
        intro hc
        obtain ⟨tg, htg, hslugeq⟩ := List.mem_map.mp hc
        exact hslug (List.any_eq_true.mpr ⟨tg, htg, decide_eq_true hslugeq⟩)
      by_cases hmem : pyNormalize t ∈ s.assoc.map Tag.name <;>
        [rw [if_pos hmem]; rw [if_neg hmem]] <;>
        · simp only [List.map_append, List.map_cons, List.map_nil]
          rw [List.nodup_append]
          exact ⟨h, List.nodup_singleton _, by simpa using fun hc => hnotin hc⟩
  · rw [createTagsStep_some_eq s t tg hfind]
    by_cases hmem : t ∈ s.assoc.map Tag.name
    · rw [if_pos hmem]; exact h
    · rw [if_neg hmem]; exact h

theorem createTagsStep_tableNames_nodup (s : TagState) (t : String)
    (hnorm : pyNormalize t = t)
    (h : (s.table.map Tag.name).Nodup) : ((createTagsStep s t).table.map Tag.name).Nodup := by
  rcases hfind : s.table.find? (fun tg => tg.name = t) with _ | tg
  · rw [createTagsStep_none_eq s t hfind]
    by_cases hslug : s.table.any (fun tg => tg.slug = slugify (pyNormalize t))
    · rw [if_pos hslug]; exact h
    · rw [if_neg hslug]
      have hnone := (find?_none_iff_table s.table t).mp hfind
      have hnotin : pyNormalize t ∉ s.table.map Tag.name := by
        intro hc
        obtain ⟨tg, htg, hnameeq⟩ := List.mem_map.mp hc
        exact hnone ⟨tg, htg, by rw [hnameeq, hnorm]⟩
      by_cases hmem : pyNormalize t ∈ s.assoc.map Tag.name <;>
        [rw [if_pos hmem]; rw [if_neg hmem]] <;>
        · simp only [List.map_append, List.map_cons, List.map_nil]
          rw [List.nodup_append]
          exact ⟨h, List.nodup_singleton _, by simpa using fun hc => hnotin hc⟩
  · rw [createTagsStep_some_eq s t tg hfind]
    by_cases hmem : t ∈ s.assoc.map Tag.name
    · rw [if_pos hmem]; exact h
    · rw [if_neg hmem]; exact h

theorem create_tags_assocNames_nodup (s : TagState) (str : String)
    (h : (s.assoc.map Tag.name).Nodup) :
    ((create_tags s str).assoc.map Tag.name).Nodup := by
  unfold create_tags
  generalize (pySplitComma str).map pyNormalize = l
  induction l generalizing s with
  | nil => exact h
  | cons u rest ih => exact ih _ (createTagsStep_assocNames_nodup s u h)

theorem create_tags_tableSlugs_nodup (s : TagState) (str : String)
    (h : (s.table.map Tag.slug).Nodup) :
    ((create_tags s str).table.map Tag.slug).Nodup := by
  unfold create_tags
  generalize (pySplitComma str).map pyNormalize = l
  induction l generalizing s with
  | nil => exact h
  | cons u rest ih => exact ih _ (createTagsStep_tableSlugs_nodup s u h)

theorem create_tags_tableNames_nodup (s : TagState) (str : String)
    (h : (s.table.map Tag.name).Nodup) :
    ((create_tags s str).table.map Tag.name).Nodup := by
  unfold create_tags
  have hnorm : ∀ u ∈ (pySplitComma str).map pyNormalize, pyNormalize u = u := by
    intro u hu
    obtain ⟨v, _, rfl⟩ := List.mem_map.mp hu
    exact pyNormalize_idem v
  revert hnorm
  generalize (pySplitComma str).map pyNormalize = l
  intro hnorm
  induction l generalizing s with
  | nil => exact h
  | cons u rest ih =>
    exact ih _ (createTagsStep_tableNames_nodup s u (hnorm u (List.mem_cons_self u rest)) h)
      (fun v hv => hnorm v (List.mem_cons_of_mem u hv))

/-- Claim C1: the spec (and the NOTE comment on `models.py` lines 140-143)
says a publish → unpublish → publish cycle neither re-fires
`entry_published` nor changes `published_on` on the final re-publish.  The
code does the opposite: `unpublish` nulls `published_on`, so the final
`publish()` sends `entry_published` again and stamps a fresh timestamp —
and even the `published = True; save()` route re-fires, because the
null-check guard passes again.  This theorem runs the cycle on a concrete
fresh entry. -/
theorem entry_published_refires_on_republish :
    Entry.publish (mkEntry "html" "foo") ⟨[], 1⟩ cycleT1
      = ([.entry_published], .ok (cycleE1, cycleW1))
    ∧ Entry.unpublish cycleE1 cycleW1 cycleT2 = ([], .ok (cycleE2, cycleW1))
    ∧ Entry.publish cycleE2 cycleW1 cycleT3 = ([.entry_published], .ok (cycleE3, cycleW1))
    ∧ (Entry.save { cycleE2 with published := true } cycleW1 cycleT3).1 = [.entry_published]
    ∧ cycleE1.published_on = some cycleT1
    ∧ cycleE3.published_on = some cycleT3
    ∧ some cycleT3 ≠ some cycleT1 :=
  ⟨rfl, rfl, rfl, rfl, rfl, rfl, by decide⟩

/-- Claim C2: `content_format = "md"` raises `NotImplementedError` out of
`save`, and nothing is persisted.  For `"rst"`, however, the spec's
promised not-supported error is wrong about the code: line 123 reads the
misspelled attribute `content_fromat`, so Python raises `AttributeError`
instead (the repository's own test even expects rst rendering to
succeed).  `"html"` copies `raw_content` verbatim, also through `save`. -/
theorem render_content_error_kinds :
    (mkEntry "rst" "t").render_content = .error .attributeError
    ∧ (mkEntry "md" "t").render_content = .error .notImplementedError
    ∧ (Entry.save (mkEntry "rst" "t") ⟨[], 1⟩ wT).2 = .error .attributeError
    ∧ (Entry.save (mkEntry "md" "t") ⟨[], 1⟩ wT).2 = .error .notImplementedError
    ∧ (mkEntry "html" "t").render_content
        = .ok { mkEntry "html" "t" with rendered_content := "Test Content" }
    ∧ (mkEntry "html" "t").raw_content = "Test Content"
    ∧ PyError.attributeError ≠ PyError.notImplementedError :=
  ⟨rfl, rfl, rfl, rfl, rfl, rfl, by decide⟩

/-- Claim C3 counterexample: an `IntegrityError` during Tag creation
(here: token `"a-b"` whose slug collides with the existing row
`("a b", "a-b")`) does NOT lead to a re-fetch-and-associate — the
`except IntegrityError: pass` in `create_tags` skips the token, leaving
the entry with no association at all. -/
theorem integrity_error_skips_token :
    get_or_create [⟨"a b", "a-b"⟩] "a-b" = .error .integrityError
    ∧ create_tags { table := [⟨"a b", "a-b"⟩], assoc := [] } "a-b"
        = { table := [⟨"a b", "a-b"⟩], assoc := [] } := ⟨rfl, rfl⟩

/-- Claim C3 as amended: when `get_or_create` raises, the loop body
catches the error and leaves the state exactly as it was — no Tag is
created or associated for that token, and no error reaches the caller
(`create_tags` is total). -/
theorem integrity_error_silently_ignored (s : TagState) (t : String) (err : PyError)
    (h : get_or_create s.table t = .error err) : createTagsStep s t = s := by
  unfold createTagsStep
  rw [h]

/-- Witness for the amended Claim C3 at the slug-collision input. -/
theorem integrity_error_silently_ignored_witness :
    get_or_create [(⟨"a b", "a-b"⟩ : Tag)] "a-b" = .error .integrityError
    ∧ createTagsStep { table := [⟨"a b", "a-b"⟩], assoc := [] } "a-b"
        = { table := [⟨"a b", "a-b"⟩], assoc := [] } :=
  ⟨rfl, integrity_error_silently_ignored _ "a-b" .integrityError rfl⟩

/-- Claim C4 counterexample: the claim says empty tokens produce no Tag
and every distinct non-empty token gets one.  On `tag_string
"a b, a-b,,"` the code instead creates a Tag named `""` for the empty
token, and creates no Tag for `"a-b"` (its slug collides with the Tag of
`"a b"`, and the `IntegrityError` is swallowed). -/
theorem empty_token_creates_tag :
    (create_tags { table := [], assoc := [] } "a b, a-b,,").table.map Tag.name = ["a b", ""]
    ∧ "" ∈ (create_tags { table := [], assoc := [] } "a b, a-b,,").table.map Tag.name
    ∧ "a-b" ∉ (create_tags { table := [], assoc := [] } "a b, a-b,,").table.map Tag.name := by
  refine ⟨rfl, ?_, ?_⟩ <;> decide

/-- Claim C4 as amended: after extraction, every token of `tag_string`
(split on commas, trimmed and lowercased — the empty token included) is
settled: either a Tag with that name exists and that name is associated
with the entry, or no Tag with that name exists because its slug collides
with an existing Tag's slug and the token was skipped (the
`IntegrityError` swallowed).  Extraction never introduces duplicate
association names, table names or table slugs, so a settled token has
exactly one Tag row and one association; on `"a, A , a,b"` from an empty
store exactly the two Tags `a`, `b` result, each associated once. -/
theorem one_tag_per_distinct_token :
    create_tags { table := [], assoc := [] } "a, A , a,b"
      = { table := [⟨"a", "a"⟩, ⟨"b", "b"⟩], assoc := [⟨"a", "a"⟩, ⟨"b", "b"⟩] }
    ∧ create_tags { table := [], assoc := [] } "a b, a-b,,"
      = { table := [⟨"a b", "a-b"⟩, ⟨"", ""⟩], assoc := [⟨"a b", "a-b"⟩, ⟨"", ""⟩] }
    ∧ (∀ s str t, t ∈ (pySplitComma str).map pyNormalize →
        ((∃ tg ∈ (create_tags s str).table, tg.name = t)
            ∧ t ∈ (create_tags s str).assoc.map Tag.name)
        ∨ ((¬ ∃ tg ∈ (create_tags s str).table, tg.name = t)
            ∧ ∃ tg ∈ (create_tags s str).table, tg.slug = slugify t))
    ∧ (∀ s str, (s.assoc.map Tag.name).Nodup → ((create_tags s str).assoc.map Tag.name).Nodup)
    ∧ (∀ s str, (s.table.map Tag.name).Nodup → ((create_tags s str).table.map Tag.name).Nodup)
    ∧ (∀ s str, (s.table.map Tag.slug).Nodup → ((create_tags s str).table.map Tag.slug).Nodup) := by
  refine ⟨rfl, rfl, ?_, create_tags_assocNames_nodup, create_tags_tableNames_nodup,
    create_tags_tableSlugs_nodup⟩
  intro s str t ht
  have hnorm : ∀ u ∈ (pySplitComma str).map pyNormalize, pyNormalize u = u := by
    intro u hu
    obtain ⟨v, _, rfl⟩ := List.mem_map.mp hu
    exact pyNormalize_idem v
  have hd := tagDone_foldl ((pySplitComma str).map pyNormalize) s hnorm t ht
  unfold TagDone at hd
  rw [hnorm t ht] at hd
  exact hd

/-- Witness for the amended Claim C4: the settlement clause at the
concrete token `"a"` of `"a, A , a,b"`, and the no-duplicates clauses on
that run, all from the empty state. -/
theorem one_tag_per_distinct_token_witness :
    (((∃ tg ∈ (create_tags { table := [], assoc := [] } "a, A , a,b").table, tg.name = "a")
        ∧ "a" ∈ (create_tags { table := [], assoc := [] } "a, A , a,b").assoc.map Tag.name)
      ∨ ((¬ ∃ tg ∈ (create_tags { table := [], assoc := [] } "a, A , a,b").table, tg.name = "a")
        ∧ ∃ tg ∈ (create_tags { table := [], assoc := [] } "a, A , a,b").table,
            tg.slug = slugify "a"))
    ∧ ((create_tags { table := [], assoc := [] } "a, A , a,b").assoc.map Tag.name).Nodup
    ∧ ((create_tags { table := [], assoc := [] } "a, A , a,b").table.map Tag.name).Nodup
    ∧ ((create_tags { table := [], assoc := [] } "a, A , a,b").table.map Tag.slug).Nodup :=
  ⟨one_tag_per_distinct_token.2.2.1 { table := [], assoc := [] } "a, A , a,b" "a" (by decide),
   one_tag_per_distinct_token.2.2.2.1 _ _ (by decide),
   one_tag_per_distinct_token.2.2.2.2.1 _ _ (by decide),
   one_tag_per_distinct_token.2.2.2.2.2 _ _ (by decide)⟩

/-- Claim C5: `_create_date_slug`'s date policy — a never-persisted entry
uses the current date; a persisted entry that is published with
`published_on` set uses that date; otherwise a set `updated_on` supplies
the date; and the result `YYYY/MM/DD/<slug>` uses the slug as it stands at
that point — inside `save`, the slug `_create_slug` just derived. -/
theorem date_slug_policy (e : Entry) (today : DateTime) :
    (e.pk = none →
      e.create_date_slug today
        = .ok { e with date_slug := dateFormat today.date ++ "/" ++ e.slug })
    ∧ (∀ T, e.pk ≠ none → e.published = true → e.published_on = some T →
      e.create_date_slug today
        = .ok { e with date_slug := dateFormat T.date ++ "/" ++ e.slug })
    ∧ (∀ U, e.pk ≠ none → ¬ (e.published = true ∧ e.published_on.isSome = true) →
        e.updated_on = some U →
      e.create_date_slug today
        = .ok { e with date_slug := dateFormat U.date ++ "/" ++ e.slug })
    ∧ (∀ w now e' w', e.pk = none → (Entry.save e w now).2 = .ok (e', w') →
      e'.date_slug = dateFormat now.date ++ "/" ++ (e.create_slug).slug) := by
  refine ⟨?_, ?_, ?_, ?_⟩
  · intro h
    simp [Entry.create_date_slug, h]
  · intro T h1 h2 h3
    simp [Entry.create_date_slug, h1, h2, h3]
  · intro U h1 h2 h3
    have hb : (e.published && e.published_on.isSome) = false := by
      rcases hp : e.published with _ | _
      · simp
      · rcases hpo : e.published_on.isSome with _ | _
        · simp
        · exact absurd ⟨hp, hpo⟩ h2
    simp [Entry.create_date_slug, h1, hb, h3]
  · intro w now e' w' hpk h
    obtain ⟨e2, hds, hdslug, _⟩ := save_ok_detail e w now e' w' h
    obtain ⟨sl, hsl⟩ := create_slug_shape e
    have hpk2 : (e.create_slug).pk = none := by rw [hsl]; exact hpk
    have haux : (e.create_slug).create_date_slug now
        = .ok { e.create_slug with
                date_slug := dateFormat now.date ++ "/" ++ (e.create_slug).slug } := by
      simp [Entry.create_date_slug, hpk2]
    rw [haux] at hds
    have he2 : e2 = { e.create_slug with
        date_slug := dateFormat now.date ++ "/" ++ (e.create_slug).slug } :=
      (Except.ok.injEq .. ▸ hds).symm
    rw [hdslug, he2]

/-- Witness for Claim C5: each date-selection branch and the in-save slug
freshness, at concrete entries. -/
theorem date_slug_policy_witness :
    (mkEntry "html" "t").create_date_slug wT
      = .ok { mkEntry "html" "t" with
              date_slug := dateFormat wT.date ++ "/" ++ (mkEntry "html" "t").slug }
    ∧ cycleE1.create_date_slug wT
      = .ok { cycleE1 with date_slug := dateFormat cycleT1.date ++ "/" ++ cycleE1.slug }
    ∧ cycleE2.create_date_slug wT
      = .ok { cycleE2 with date_slug := dateFormat cycleT2.date ++ "/" ++ cycleE2.slug }
    ∧ savedE.date_slug = dateFormat wT.date ++ "/" ++ ((mkEntry "html" "foo").create_slug).slug :=
  ⟨(date_slug_policy (mkEntry "html" "t") wT).1 rfl,
   (date_slug_policy cycleE1 wT).2.1 cycleT1 (by decide) rfl rfl,
   (date_slug_policy cycleE2 wT).2.2.1 cycleT2 (by decide) (by decide) rfl,
   (date_slug_policy (mkEntry "html" "foo") wT).2.2.2 ⟨[], 1⟩ wT savedE savedW rfl rfl⟩

/-- Claim C6: `_create_slug` never overwrites a non-empty slug, and an
unset slug is derived from the title by `slugify`; `"Foo Bar"` becomes
`"foo-bar"`. -/
theorem slug_first_write_wins (e : Entry) :
    (e.slug ≠ "" → e.create_slug = e)
    ∧ (e.slug = "" → e.create_slug = { e with slug := slugify e.title })
    ∧ (e.slug = "" → e.title = "Foo Bar" → (e.create_slug).slug = "foo-bar") := by
  refine ⟨?_, ?_, ?_⟩
  · intro h
    simp [Entry.create_slug, h]
  · intro h
    simp [Entry.create_slug, h]
  · intro h ht
    simp [Entry.create_slug, h, ht]
    decide

/-- Witness for Claim C6 at concrete entries. -/
theorem slug_first_write_wins_witness :
    ({ mkEntry "html" "t" with slug := "keep" } : Entry).create_slug
      = { mkEntry "html" "t" with slug := "keep" }
    ∧ (mkEntry "html" "t").create_slug
      = { mkEntry "html" "t" with slug := slugify (mkEntry "html" "t").title }
    ∧ ({ mkEntry "html" "t" with title := "Foo Bar" } : Entry).create_slug.slug = "foo-bar" :=
  ⟨(slug_first_write_wins _).1 (by decide),
   (slug_first_write_wins _).2.1 rfl,
   (slug_first_write_wins _).2.2 rfl rfl⟩

/-- Claim C7: tag extraction is idempotent — a second run with the same
`tag_string`, from the table and associations the first run produced,
changes nothing. -/
theorem tag_extraction_idempotent (s : TagState) (str : String) :
    create_tags (create_tags s str) str = create_tags s str := by
  unfold create_tags
  apply foldl_fixed_of_done
  intro t ht
  have hnorm : ∀ u ∈ (pySplitComma str).map pyNormalize, pyNormalize u = u := by
    intro u hu
    obtain ⟨v, _, rfl⟩ := List.mem_map.mp hu
    exact pyNormalize_idem v
  exact tagDone_foldl _ s hnorm t ht

/-- Claim C8: the `tags` relation is append-only — extraction and `save`
only ever add associations (and Tag rows); everything associated before
remains associated after. -/
theorem tags_append_only (s : TagState) (str : String) :
    (∀ x ∈ s.assoc, x ∈ (create_tags s str).assoc)
    ∧ (∀ x ∈ s.table, x ∈ (create_tags s str).table)
    ∧ (∀ e w now e' w', (Entry.save e w now).2 = .ok (e', w') →
        ∀ x ∈ e.tags, x ∈ e'.tags) := by
  refine ⟨?_, ?_, ?_⟩
  · intro x hx
    show x ∈ (((pySplitComma str).map pyNormalize).foldl createTagsStep s).assoc
    obtain ⟨u, hu⟩ := foldl_assoc_append ((pySplitComma str).map pyNormalize) s
    rw [hu]
    exact List.mem_append_left _ hx
  · intro x hx
    show x ∈ (((pySplitComma str).map pyNormalize).foldl createTagsStep s).table
    obtain ⟨u, hu⟩ := foldl_table_append ((pySplitComma str).map pyNormalize) s
    rw [hu]
    exact List.mem_append_left _ hx
  · intro e w now e' w' h x hx
    obtain ⟨e2, _, _, _, _, _, _, htags⟩ := save_ok_detail e w now e' w' h
    rw [htags]
    show x ∈ (((pySplitComma e.tag_string).map pyNormalize).foldl createTagsStep
      { table := w.table, assoc := e.tags }).assoc
    obtain ⟨u, hu⟩ := foldl_assoc_append ((pySplitComma e.tag_string).map pyNormalize)
      { table := w.table, assoc := e.tags }
    rw [hu]
    exact List.mem_append_left _ hx

/-- Witness for Claim C8: a pre-existing association survives a fresh
extraction run and a `save`. -/
theorem tags_append_only_witness :
    (⟨"x", "x"⟩ : Tag) ∈ (create_tags { table := [⟨"x", "x"⟩], assoc := [⟨"x", "x"⟩] } "a").assoc
    ∧ (⟨"x", "x"⟩ : Tag) ∈ (create_tags { table := [⟨"x", "x"⟩], assoc := [⟨"x", "x"⟩] } "a").table
    ∧ (⟨"foo", "foo"⟩ : Tag) ∈ savedE.tags :=
  ⟨(tags_append_only _ "a").1 _ (by decide),
   (tags_append_only _ "a").2.1 _ (by decide),
   (tags_append_only { table := [], assoc := [] } "").2.2 savedE savedW wT savedE savedW rfl
     _ (by decide)⟩

/-- Claim C9: for a persisted entry that is not published-with-timestamp
and whose `updated_on` is unset, none of `_create_date_slug`'s branches
assigns `d`, and the format line fails (`NameError` on the unbound
local). -/
theorem date_slug_name_error (e : Entry) (today : DateTime) (h1 : e.pk ≠ none)
    (h2 : ¬ (e.published = true ∧ e.published_on.isSome = true)) (h3 : e.updated_on = none) :
    e.create_date_slug today = .error .nameError := by
  have hb : (e.published && e.published_on.isSome) = false := by
    rcases hp : e.published with _ | _
    · simp
    · rcases hpo : e.published_on.isSome with _ | _
      · simp
      · exact absurd ⟨hp, hpo⟩ h2
  simp [Entry.create_date_slug, h1, hb, h3]

/-- Witness for Claim C9: a persisted draft with no `updated_on`. -/
theorem date_slug_name_error_witness :
    ({ mkEntry "html" "t" with pk := some 1 } : Entry).create_date_slug wT
      = .error .nameError :=
  date_slug_name_error _ wT (by decide) (by decide) rfl

/-- Claim C10: every `publish()` call sends `entry_published` (exactly
once per call) and overwrites `published_on` with the current instant,
whatever the entry's prior state: `_set_published` runs before `save`'s
null-check guard can intervene, so `publish` is not idempotent. -/
theorem publish_always_fires (e : Entry) (w : World) (now : DateTime) :
    (Entry.publish e w now).1 = [Signal.entry_published]
    ∧ (e.set_published now).1.published_on = some now
    ∧ (e.set_published now).2 = [Signal.entry_published]
    ∧ (∀ e' w', (Entry.publish e w now).2 = .ok (e', w') →
        e'.published_on = some now ∧ e'.published = true) := by
  refine ⟨?_, rfl, rfl, ?_⟩
  · simp only [Entry.publish, Entry.set_published]
    rw [save_sigs_of_published_on_some _ w now (by simp)]
    rfl
  · intro e' w' h
    simp only [Entry.publish, Entry.set_published] at h
    obtain ⟨e2, _, _, _, hpub, hpubon, _, _⟩ := save_ok_detail _ w now e' w' h
    simp only at hpub hpubon
    constructor
    · rw [hpubon, if_neg (by simp)]
    · rw [hpub, if_neg (by simp)]

/-- Witness for Claim C10: a concrete `publish()` call. -/
theorem publish_always_fires_witness :
    (Entry.publish (mkEntry "html" "foo") ⟨[], 1⟩ wT).1 = [Signal.entry_published]
    ∧ ({ savedE with published := true, published_on := some wT } : Entry).published_on = some wT
    ∧ ({ savedE with published := true, published_on := some wT } : Entry).published = true :=
  ⟨(publish_always_fires (mkEntry "html" "foo") ⟨[], 1⟩ wT).1,
   ((publish_always_fires (mkEntry "html" "foo") ⟨[], 1⟩ wT).2.2.2
      { savedE with published := true, published_on := some wT } savedW rfl).1,
   ((publish_always_fires (mkEntry "html" "foo") ⟨[], 1⟩ wT).2.2.2
      { savedE with published := true, published_on := some wT } savedW rfl).2⟩
